import Mathlib

/-!
Verification of `IPython/html/services/contents/fileio.py`: path resolution
(`_get_os_path`), atomic file writes (`atomic_writing`), permission-error
translation (`perm_to_403`) and the generic file read/write helpers
(`_read_file`, `_save_file`).

Modelling conventions (shallow embedding):
* Python byte strings and unicode strings are modelled as `List Nat`
  (byte values / code points); filesystem paths and error messages are
  modelled as `List Char` (POSIX, separator `'/'`).
* The filesystem is a small explicit state (`FsState`): an association list
  of regular files, a list of existing staging directories, a symlink table,
  and the set of paths on which the OS denies permission.
* `tempfile.mkdtemp` is modelled by an explicit unique-suffix parameter;
  its freshness guarantee becomes hypotheses of the theorems.
* Exceptions are explicit values (`Exc`); context-manager control flow is
  explicit value passing.
-/

namespace FileIO

/-! ## Python `str`/`os.path` primitives (POSIX), modelled on `List Char` -/

/-- Python `s.split(sep)` for a single-character separator:
`splitChar '/' "a/b" = ["a","b"]`, `splitChar '/' "" = [""]`. -/
def splitChar (sep : Char) : List Char → List (List Char)
  | [] => [[]]
  | c :: rest =>
    let r := splitChar sep rest
    if c = sep then [] :: r
    else
      match r with
      | [] => [[c]]
      | h :: t => (c :: h) :: t

/-- Python `sep.join(parts)` for a single-character separator. -/
def joinChar (sep : Char) : List (List Char) → List Char
  | [] => []
  | [x] => x
  | x :: xs => x ++ sep :: joinChar sep xs

/-- Python `s.rstrip(c)`. -/
def rstripChar (c : Char) (l : List Char) : List Char :=
  (l.reverse.dropWhile (· == c)).reverse

/-- Python `s.strip(c)`. -/
def stripChar (c : Char) (l : List Char) : List Char :=
  rstripChar c (l.dropWhile (· == c))

/-- `posixpath.join` for two components. -/
def pJoin (a b : List Char) : List Char :=
  if b.head? = some '/' then b
  else if a = [] ∨ a.getLast? = some '/' then a ++ b
  else a ++ '/' :: b

/-- The tail component of `posixpath.split`. -/
def pBasename (p : List Char) : List Char :=
  (p.reverse.takeWhile (· != '/')).reverse

/-- The head component of `posixpath.split`: everything up to the last
separator, with trailing separators stripped unless the head is all
separators. -/
def pDirname (p : List Char) : List Char :=
  let rev := p.reverse
  let tailRev := rev.takeWhile (· != '/')
  let headAll := (rev.drop tailRev.length).reverse
  if headAll ≠ [] ∧ headAll.any (· != '/') then rstripChar '/' headAll else headAll

/-- `posixpath.normpath`: collapse `//`, drop `.` components, resolve `..`
components textually (a leading `//` is preserved, per POSIX). -/
def normpath (p : List Char) : List Char :=
  if p = [] then ".".data
  else
    let initialSlashes : Nat :=
      if "//".data.isPrefixOf p ∧ ¬ "///".data.isPrefixOf p then 2
      else if "/".data.isPrefixOf p then 1 else 0
    let comps := splitChar '/' p
    let newComps := comps.foldl (fun acc comp =>
      if comp = [] ∨ comp = ".".data then acc
      else if comp ≠ "..".data ∨ (initialSlashes = 0 ∧ acc = []) ∨ acc.getLast? = some "..".data
        then acc ++ [comp]
      else if acc ≠ [] then acc.dropLast else acc) []
    let res := List.replicate initialSlashes '/' ++ joinChar '/' newComps
    if res = [] then ".".data else res

/-- `os.path.abspath` on an already-absolute path (the spec fixes `Root` to be
an absolute directory, and every path given to `abspath` in `_get_os_path` is
built by joining the absolute root): just normalization. -/
def abspath (p : List Char) : List Char := normpath p

/-- Modelled from the spec: `to_os_path` (from `IPython.html.utils`, not
under `src/`) converts the slash-separated virtual path to a native path
relative to root: split on `/`, drop empty parts, join onto root.  `.` and
`..` segments are not interpreted here; normalization happens at containment
check time. -/
def to_os_path (path root : List Char) : List Char :=
  let parts := (splitChar '/' (stripChar '/' path)).filter (· != [])
  parts.foldl pJoin root

/-- Modelled from the spec: `to_api_path` (from `IPython.html.utils`, not
under `src/`) inverts resolution against root: the root prefix is removed
and the remainder is rendered as a slash-separated relative path. -/
def to_api_path (os_path root : List Char) : List Char :=
  let p := if root.isPrefixOf os_path then os_path.drop root.length else os_path
  joinChar '/' ((splitChar '/' (stripChar '/' p)).filter (· != []))

/-! ## Errors -/

def EPERM : Nat := 1
def ENOENT : Nat := 2
def EACCES : Nat := 13

/-- A Python exception as seen by this module: a tornado `HTTPError` with a
status code and message, an `OSError`/`IOError` with an errno and filename
(empty list models `filename = None`), or any other exception (`generic`). -/
inductive Exc where
  | http (status : Nat) (msg : List Char)
  | osErr (code : Nat) (filename : List Char)
  | generic (tag : List Char)
deriving DecidableEq

/-! ## `_get_os_path` (PathResolver) -/

/-- `FileManagerMixin._get_os_path`: resolve an API path against `root_dir`
and check containment exactly as the source does:
`(os.path.abspath(os_path) + os.path.sep).startswith(root)` — the separator
is appended to the resolved path only, not to `root`. -/
def _get_os_path (root_dir path : List Char) : Except Exc (List Char) :=
  let root := abspath root_dir
  let os_path := to_os_path path root
  if ¬ (root.isPrefixOf (abspath os_path ++ ['/'])) then
    .error (.http 404 (path ++ " is outside root contents directory".data))
  else
    .ok os_path

/-- The containment test as the spec words it: `absolute(realPath) +
separator` starts with `absolute(root) + separator` — the separator appended
to BOTH sides. -/
def spec_contains (root real : List Char) : Bool :=
  (abspath root ++ ['/']).isPrefixOf (abspath real ++ ['/'])

/-- Claim C1: the spec asserts that the containment test appends a trailing
separator to both sides, so a sibling directory whose name merely extends
root's name (`/root2` against root `/root`) is rejected with `OutOfRoot`.
The code appends the separator only to the resolved path
(`(abspath(os_path) + sep).startswith(root)`), so for root `/root` the
virtual path `../root2` — which normalizes to the sibling `/root2`, outside
root, and fails the spec's both-sided test — is accepted and resolved
successfully, contradicting both the spec and the function's own
documentation ("Raises 404: if path is outside root"). -/
theorem C1_sibling_escape :
    _get_os_path "/root".data "../root2".data = Except.ok "/root/../root2".data ∧
    abspath (to_os_path "../root2".data (abspath "/root".data)) = "/root2".data ∧
    spec_contains "/root".data (to_os_path "../root2".data (abspath "/root".data)) = false := by
  refine ⟨rfl, rfl, rfl⟩

/-! ## Filesystem state -/

/-- The filesystem as this module observes it: regular files (path ↦ bytes),
existing staging directories, symbolic links (path ↦ link target), and the
set of paths on which the OS denies permission (`EACCES`). -/
structure FsState where
  files : List (List Char × List Nat)
  dirs : List (List Char)
  links : List (List Char × List Char)
  noperm : List (List Char)
deriving DecidableEq

def lookupFile (st : FsState) (p : List Char) : Option (List Nat) :=
  (st.files.find? (fun f => f.1 == p)).map (fun f => f.2)

/-- `os.path.isfile`. -/
def isFile (st : FsState) (p : List Char) : Bool :=
  (lookupFile st p).isSome

/-- `os.path.islink`. -/
def islink (st : FsState) (p : List Char) : Bool :=
  (st.links.find? (fun l => l.1 == p)).isSome

/-- `os.readlink` (empty if not a link; only called under `islink`). -/
def readlink (st : FsState) (p : List Char) : List Char :=
  ((st.links.find? (fun l => l.1 == p)).map (fun l => l.2)).getD []

/-- Create or overwrite a regular file. -/
def setFile (st : FsState) (p : List Char) (b : List Nat) : FsState :=
  { st with files := (p, b) :: st.files.filter (fun f => f.1 != p) }

/-- `os.remove`. -/
def removeFile (st : FsState) (p : List Char) : FsState :=
  { st with files := st.files.filter (fun f => f.1 != p) }

/-- `p` is the directory `d` itself or lies underneath it. -/
def underDir (d p : List Char) : Bool :=
  (d ++ ['/']).isPrefixOf p || p == d

/-- `shutil.rmtree d`: recursively remove the directory and everything in it. -/
def rmtree (st : FsState) (d : List Char) : FsState :=
  { st with
    dirs := st.dirs.filter (fun x => ! underDir d x),
    files := st.files.filter (fun f => ! underDir d f.1) }

/-- `io.open(p, 'rb')` followed by `f.read()`: the raw bytes, or an
`OSError`/`IOError` (permission denied, missing file). -/
def io_open_rb (st : FsState) (p : List Char) : Except Exc (List Nat) :=
  if p ∈ st.noperm then .error (.osErr EACCES p)
  else
    match lookupFile st p with
    | some b => .ok b
    | none => .error (.osErr ENOENT p)

/-! ## `base64` module: `encodestring` / `decodestring`

`base64.encodestring` (MIME base64): the input is cut into 57-byte chunks,
each encoded by `binascii.b2a_base64` into (up to) 76 characters followed by
a newline.  `base64.decodestring` is `binascii.a2b_base64`: characters
outside the alphabet are skipped, `=` ends the data (with the quirky pad
rules of `binascii.c`), and leftover bits raise `Incorrect padding`.
Byte strings are `List Nat`. -/

def b64codes : List Nat :=
  "ABCDEFGHIJKLMNOPQRSTUVWXYZabcdefghijklmnopqrstuvwxyz0123456789+/".data.map Char.toNat

def idxOf : List Nat → Nat → Option Nat
  | [], _ => none
  | x :: xs, v => if x = v then some 0 else (idxOf xs v).map (· + 1)

/-- `table_a2b_base64` lookup (without the PAD entry). -/
def decodeByte (c : Nat) : Option Nat := idxOf b64codes c

/-- The base64 alphabet character (as a byte) for a 6-bit value. -/
def encodeByte (v : Nat) : Nat := b64codes.getD v 65

/-- The pure 3-bytes-to-4-characters part of `binascii.b2a_base64`,
including `=` padding for a 1- or 2-byte tail. -/
def encodeGroups : List Nat → List Nat
  | [] => []
  | [x] => [encodeByte (x / 4), encodeByte (x % 4 * 16), 61, 61]
  | [x, y] => [encodeByte (x / 4), encodeByte (x % 4 * 16 + y / 16), encodeByte (y % 16 * 4), 61]
  | x :: y :: z :: rest =>
    encodeByte (x / 4) :: encodeByte (x % 4 * 16 + y / 16) ::
      encodeByte (y % 16 * 4 + z / 64) :: encodeByte (z % 64) :: encodeGroups rest

/-- `binascii.b2a_base64`: encode one chunk and append a newline. -/
def b2a (bs : List Nat) : List Nat := encodeGroups bs ++ [10]

/-- 57-byte chunking of `base64.encodestring`, fuelled so that it is
structural (the fuel is the length of the list). -/
def chunksAux : Nat → List Nat → List (List Nat)
  | _, [] => []
  | 0, _ :: _ => []
  | n + 1, x :: l => ((x :: l).take 57) :: chunksAux n ((x :: l).drop 57)

def chunks57 (l : List Nat) : List (List Nat) := chunksAux l.length l

/-- `base64.encodestring`. -/
def encodestring (b : List Nat) : List Nat := ((chunks57 b).map b2a).flatten

/-- `binascii_find_valid`: the next input character that is in the decode
table (the pad `=` is in the table). -/
def nextValid : List Nat → Option Nat
  | [] => none
  | c :: rest =>
    if c ≤ 127 ∧ (c = 61 ∨ (decodeByte c).isSome) then some c else nextValid rest

/-- The state machine of `binascii.a2b_base64`: `qpos` is the position in
the current 4-character quad, `left` the pending high bits, `acc` the output
accumulated in reverse. -/
def a2bAux : List Nat → Nat → Nat → List Nat → Except (List Char) (List Nat)
  | [], qpos, _, acc =>
    if qpos = 0 then .ok acc.reverse else .error "Incorrect padding".data
  | c :: rest, qpos, left, acc =>
    if 127 < c ∨ c = 13 ∨ c = 10 ∨ c = 32 then a2bAux rest qpos left acc
    else if c = 61 then
      if qpos = 2 then
        if nextValid rest = some 61 then .ok acc.reverse else a2bAux rest qpos left acc
      else if qpos = 3 then .ok acc.reverse
      else a2bAux rest qpos left acc
    else
      match decodeByte c with
      | none => a2bAux rest qpos left acc
      | some v =>
        if qpos = 0 then a2bAux rest 1 v acc
        else if qpos = 1 then a2bAux rest 2 (v % 16) ((left * 4 + v / 16) :: acc)
        else if qpos = 2 then a2bAux rest 3 (v % 4) ((left * 16 + v / 4) :: acc)
        else a2bAux rest 0 0 ((left * 64 + v) :: acc)

/-- `base64.decodestring` (= `binascii.a2b_base64`). -/
def a2b (input : List Nat) : Except (List Char) (List Nat) := a2bAux input 0 0 []

/-! ## UTF-8 / ASCII codecs -/

/-- UTF-8 encoding of one code point. -/
def utf8EncodeChar (c : Nat) : List Nat :=
  if c < 128 then [c]
  else if c < 2048 then [192 + c / 64, 128 + c % 64]
  else if c < 65536 then [224 + c / 4096, 128 + c / 64 % 64, 128 + c % 64]
  else [240 + c / 262144, 128 + c / 4096 % 64, 128 + c / 64 % 64, 128 + c % 64]

/-- Python `u.encode('utf8')` on a unicode string (list of code points). -/
def utf8Encode (s : List Nat) : List Nat := (s.map utf8EncodeChar).flatten

/-- Python `b.decode('utf8')`: strict UTF-8 decoding (rejecting overlong
forms, surrogates and out-of-range values), `none` on `UnicodeError`. -/
def utf8Decode : List Nat → Option (List Nat)
  | [] => some []
  | b :: rest =>
    if b < 128 then (utf8Decode rest).map (b :: ·)
    else if 194 ≤ b ∧ b ≤ 223 then
      match rest with
      | b2 :: rest2 =>
        if 128 ≤ b2 ∧ b2 ≤ 191 then
          (utf8Decode rest2).map (((b - 192) * 64 + (b2 - 128)) :: ·)
        else none
      | [] => none
    else if 224 ≤ b ∧ b ≤ 239 then
      match rest with
      | b2 :: b3 :: rest3 =>
        if (if b = 224 then 160 ≤ b2 ∧ b2 ≤ 191
            else if b = 237 then 128 ≤ b2 ∧ b2 ≤ 159
            else 128 ≤ b2 ∧ b2 ≤ 191) ∧ 128 ≤ b3 ∧ b3 ≤ 191 then
          (utf8Decode rest3).map (((b - 224) * 4096 + (b2 - 128) * 64 + (b3 - 128)) :: ·)
        else none
      | _ => none
    else if 240 ≤ b ∧ b ≤ 244 then
      match rest with
      | b2 :: b3 :: b4 :: rest4 =>
        if (if b = 240 then 144 ≤ b2 ∧ b2 ≤ 191
            else if b = 244 then 128 ≤ b2 ∧ b2 ≤ 143
            else 128 ≤ b2 ∧ b2 ≤ 191) ∧ 128 ≤ b3 ∧ b3 ≤ 191 ∧ 128 ≤ b4 ∧ b4 ≤ 191 then
          (utf8Decode rest4).map
            (((b - 240) * 262144 + (b2 - 128) * 4096 + (b3 - 128) * 64 + (b4 - 128)) :: ·)
        else none
      | _ => none
    else none

/-- Python `u.encode('ascii')`: succeeds exactly when every code point is
below 128, and then the bytes are the code points. -/
def asciiEncode (s : List Nat) : Option (List Nat) :=
  if s.all (· < 128) then some s else none

/-- Code points of a Lean string literal (to state theorems readably). -/
def strCodes (s : String) : List Nat := s.data.map Char.toNat

/-! ## `atomic_writing` (AtomicFileWriter) -/

/-- Step 1 of `atomic_writing`: if the destination is a symlink, write to
its target (`os.path.join(os.path.dirname(path), os.readlink(path))`). -/
def awDest (st : FsState) (path : List Char) : List Char :=
  if islink st path then pJoin (pDirname path) (readlink st path) else path

/-- The staging directory `tempfile.mkdtemp(prefix=basename, dir=dirname)`
creates, with `tmpName` standing for the unique random suffix. -/
def awTmpDir (st : FsState) (path tmpName : List Char) : List Char :=
  pJoin (pDirname (awDest st path)) (pBasename (awDest st path) ++ tmpName)

/-- The temporary file inside the staging directory. -/
def awTmpPath (st : FsState) (path tmpName : List Char) : List Char :=
  pJoin (awTmpDir st path tmpName) (pBasename (awDest st path))

instance {ε α : Type} [DecidableEq ε] [DecidableEq α] : DecidableEq (Except ε α) := fun a b =>
  match a, b with
  | .ok x, .ok y =>
    if h : x = y then .isTrue (congrArg Except.ok h)
    else .isFalse (fun hc => h (Except.ok.inj hc))
  | .error x, .error y =>
    if h : x = y then .isTrue (congrArg Except.error h)
    else .isFalse (fun hc => h (Except.error.inj hc))
  | .ok _, .error _ => .isFalse (fun hc => Except.noConfusion hc)
  | .error _, .ok _ => .isFalse (fun hc => Except.noConfusion hc)

/-- Outcome of one `atomic_writing` use: the exception or success, the
resulting filesystem, and whether the handle is closed at exit. -/
structure AWOut where
  result : Except Exc Unit
  st : FsState
  closed : Bool
deriving DecidableEq

/-- The `atomic_writing` context manager, as one function over the caller's
body.  `body` is the outcome of running the caller's block against the open
handle: either the final buffered bytes or the exception it raised.
`tmpName` is the unique suffix `mkdtemp` chooses; `rmtreeR` is the outcome
`shutil.rmtree(tmp_dir)` would have (so a failing cleanup can be modelled).
The model is POSIX (`os.name != 'nt'`, so no remove-before-rename), `flush`
and `fsync` do not change the visible filesystem, and the best-effort
`_copy_metadata` (whose `OSError` is swallowed) is invisible because
permission bits are not part of the state. -/
def atomic_writing (st : FsState) (path0 : List Char) (_text : Bool)
    (body : Except Exc (List Nat)) (tmpName : List Char)
    (rmtreeR : Except Exc Unit) : AWOut :=
  let path := awDest st path0
  let dirname := pDirname path
  if dirname ∈ st.noperm then
    -- tempfile.mkdtemp raises before any staging directory exists
    { result := .error (.osErr EACCES (awTmpDir st path0 tmpName)), st := st, closed := true }
  else
    let tmp_dir := awTmpDir st path0 tmpName
    let tmp_path := awTmpPath st path0 tmpName
    let st1 : FsState := { st with dirs := tmp_dir :: st.dirs }
    let st2 := setFile st1 tmp_path []
    match body with
    | .error e =>
      -- except: fileobj.close(); shutil.rmtree(tmp_dir); raise
      match rmtreeR with
      | .error e2 => { result := .error e2, st := st2, closed := true }
      | .ok _ => { result := .error e, st := rmtree st2 tmp_dir, closed := true }
    | .ok buf =>
      let st3 := setFile st2 tmp_path buf
      let st4 := setFile (removeFile st3 tmp_path) path buf
      match rmtreeR with
      | .error e2 => { result := .error e2, st := st4, closed := true }
      | .ok _ => { result := .ok (), st := rmtree st4 tmp_dir, closed := true }

/-! ## `FileManagerMixin` (AccessGuard and I/O helpers) -/

/-- `FileManagerMixin.perm_to_403`: turn an `OSError`/`IOError` whose errno
is `EPERM` or `EACCES` into an `HTTPError 403` whose message carries the
API-level (virtual) path; re-raise everything else unchanged. -/
def perm_to_403 {α : Type} (root_dir os_path : List Char) (r : Except Exc α) : Except Exc α :=
  match r with
  | .error (.osErr code fname) =>
    if code = EPERM ∨ code = EACCES then
      let p := if os_path = [] then (if fname = [] then "unknown file".data else fname) else os_path
      .error (.http 403 ("Permission denied: ".data ++ to_api_path p root_dir))
    else .error (.osErr code fname)
  | r => r

/-- `FileManagerMixin.open`: `io.open` wrapped in `perm_to_403`. -/
def FileManagerMixin_open (root_dir : List Char) (st : FsState) (os_path : List Char) :
    Except Exc (List Nat) :=
  perm_to_403 root_dir os_path (io_open_rb st os_path)

/-- `FileManagerMixin.atomic_writing`: `atomic_writing` wrapped in
`perm_to_403`. -/
def FileManagerMixin_atomic_writing (root_dir : List Char) (st : FsState) (path : List Char)
    (text : Bool) (body : Except Exc (List Nat)) (tmpName : List Char)
    (rmtreeR : Except Exc Unit) : AWOut :=
  let r := atomic_writing st path text body tmpName rmtreeR
  { r with result := perm_to_403 root_dir path r.result }

/-- `FileManagerMixin._read_file`: reject non-regular files, read raw bytes
through the guarded `open`, then decode according to the `format` hint
(`none` models Python `None`). -/
def _read_file (root_dir : List Char) (st : FsState) (os_path : List Char)
    (format : Option (List Char)) : Except Exc (List Nat × List Char) :=
  if ¬ isFile st os_path then
    .error (.http 400 ("Cannot read non-file ".data ++ os_path))
  else
    match perm_to_403 root_dir os_path (io_open_rb st os_path) with
    | .error e => .error e
    | .ok bcontent =>
      if format = none ∨ format = some "text".data then
        match utf8Decode bcontent with
        | some s => .ok (s, "text".data)
        | none =>
          if format = some "text".data then
            .error (.http 400 (os_path ++ " is not UTF-8 encoded".data))
          else .ok (encodestring bcontent, "base64".data)
      else .ok (encodestring bcontent, "base64".data)

/-- `FileManagerMixin._save_file`: validate the format, encode the content
(UTF-8 for `text`, ASCII-then-base64-decode for `base64`, errors wrapped as
`HTTPError 400 "Encoding error saving ..."`), then write the bytes through
the guarded `atomic_writing` in binary mode.  (The source's messages quote
the words text and base64; the quotes are elided here.) -/
def _save_file (root_dir : List Char) (st : FsState) (os_path : List Char)
    (content : List Nat) (format : List Char) (tmpName : List Char) :
    Except Exc Unit × FsState :=
  if ¬ (format = "text".data ∨ format = "base64".data) then
    (.error (.http 400 "Must specify format of file contents as text or base64".data), st)
  else
    let enc : Except Exc (List Nat) :=
      if format = "text".data then .ok (utf8Encode content)
      else
        match asciiEncode content with
        | none =>
          .error (.http 400 ("Encoding error saving ".data ++ os_path ++
            ": ascii codec cannot encode character".data))
        | some b64_bytes =>
          match a2b b64_bytes with
          | .error m => .error (.http 400 ("Encoding error saving ".data ++ os_path ++ ": ".data ++ m))
          | .ok bs => .ok bs
    match enc with
    | .error e => (.error e, st)
    | .ok bcontent =>
      let r := atomic_writing st os_path false (.ok bcontent) tmpName (.ok ())
      (perm_to_403 root_dir os_path r.result, r.st)

/-- `FileManagerMixin._read_notebook`: read through the guarded `open` and
hand the bytes to the external parser (`nbformat.read`); any parser failure
becomes `HTTPError 400 "Unreadable Notebook: ..."`. -/
def _read_notebook {α : Type} (root_dir : List Char) (st : FsState) (os_path : List Char)
    (parse : List Nat → Except (List Char) α) : Except Exc α :=
  match perm_to_403 root_dir os_path (io_open_rb st os_path) with
  | .error e => .error e
  | .ok b =>
    match parse b with
    | .ok nb => .ok nb
    | .error m => .error (.http 400 ("Unreadable Notebook: ".data ++ os_path ++ " ".data ++ m))

/-! ## Helper lemmas: base64 round trip -/

theorem decodeByte_encodeByte : ∀ v, v < 64 → decodeByte (encodeByte v) = some v := by decide

theorem encodeByte_skipFacts : ∀ v, v < 64 →
    encodeByte v ≤ 127 ∧ encodeByte v ≠ 13 ∧ encodeByte v ≠ 10 ∧
      encodeByte v ≠ 32 ∧ encodeByte v ≠ 61 := by decide

/-- One alphabet character advances the `a2b_base64` state machine. -/
theorem a2bAux_cons_alpha (c v : Nat) (hc : decodeByte c = some v)
    (hskip : c ≤ 127 ∧ c ≠ 13 ∧ c ≠ 10 ∧ c ≠ 32 ∧ c ≠ 61)
    (rest : List Nat) (qpos left : Nat) (acc : List Nat) :
    a2bAux (c :: rest) qpos left acc =
      if qpos = 0 then a2bAux rest 1 v acc
      else if qpos = 1 then a2bAux rest 2 (v % 16) ((left * 4 + v / 16) :: acc)
      else if qpos = 2 then a2bAux rest 3 (v % 4) ((left * 16 + v / 4) :: acc)
      else a2bAux rest 0 0 ((left * 64 + v) :: acc) := by
  obtain ⟨h1, h2, h3, h4, h5⟩ := hskip
  simp only [a2bAux, hc]
  rw [if_neg (by omega), if_neg h5]

theorem a2bAux_alpha0 (c v : Nat) (hc : decodeByte c = some v)
    (hskip : c ≤ 127 ∧ c ≠ 13 ∧ c ≠ 10 ∧ c ≠ 32 ∧ c ≠ 61)
    (rest : List Nat) (left : Nat) (acc : List Nat) :
    a2bAux (c :: rest) 0 left acc = a2bAux rest 1 v acc := by
  rw [a2bAux_cons_alpha c v hc hskip]; rfl

theorem a2bAux_alpha1 (c v : Nat) (hc : decodeByte c = some v)
    (hskip : c ≤ 127 ∧ c ≠ 13 ∧ c ≠ 10 ∧ c ≠ 32 ∧ c ≠ 61)
    (rest : List Nat) (left : Nat) (acc : List Nat) :
    a2bAux (c :: rest) 1 left acc = a2bAux rest 2 (v % 16) ((left * 4 + v / 16) :: acc) := by
  rw [a2bAux_cons_alpha c v hc hskip]; rfl

theorem a2bAux_alpha2 (c v : Nat) (hc : decodeByte c = some v)
    (hskip : c ≤ 127 ∧ c ≠ 13 ∧ c ≠ 10 ∧ c ≠ 32 ∧ c ≠ 61)
    (rest : List Nat) (left : Nat) (acc : List Nat) :
    a2bAux (c :: rest) 2 left acc = a2bAux rest 3 (v % 4) ((left * 16 + v / 4) :: acc) := by
  rw [a2bAux_cons_alpha c v hc hskip]; rfl

theorem a2bAux_alpha3 (c v : Nat) (hc : decodeByte c = some v)
    (hskip : c ≤ 127 ∧ c ≠ 13 ∧ c ≠ 10 ∧ c ≠ 32 ∧ c ≠ 61)
    (rest : List Nat) (left : Nat) (acc : List Nat) :
    a2bAux (c :: rest) 3 left acc = a2bAux rest 0 0 ((left * 64 + v) :: acc) := by
  rw [a2bAux_cons_alpha c v hc hskip]; rfl

/-- Decoding one full quad recovers the three bytes it encodes. -/
theorem a2bAux_quad (x y z : Nat) (hx : x < 256) (hy : y < 256) (hz : z < 256)
    (rest : List Nat) (acc : List Nat) :
    a2bAux (encodeByte (x / 4) :: encodeByte (x % 4 * 16 + y / 16) ::
        encodeByte (y % 16 * 4 + z / 64) :: encodeByte (z % 64) :: rest) 0 0 acc =
      a2bAux rest 0 0 (z :: y :: x :: acc) := by
  have hv1 : x / 4 < 64 := by omega
  have hv2 : x % 4 * 16 + y / 16 < 64 := by omega
  have hv3 : y % 16 * 4 + z / 64 < 64 := by omega
  have hv4 : z % 64 < 64 := by omega
  rw [a2bAux_alpha0 _ _ (decodeByte_encodeByte _ hv1) (encodeByte_skipFacts _ hv1),
    a2bAux_alpha1 _ _ (decodeByte_encodeByte _ hv2) (encodeByte_skipFacts _ hv2),
    a2bAux_alpha2 _ _ (decodeByte_encodeByte _ hv3) (encodeByte_skipFacts _ hv3),
    a2bAux_alpha3 _ _ (decodeByte_encodeByte _ hv4) (encodeByte_skipFacts _ hv4)]
  have e1 : x / 4 * 4 + (x % 4 * 16 + y / 16) / 16 = x := by omega
  have e2 : (x % 4 * 16 + y / 16) % 16 * 16 + (y % 16 * 4 + z / 64) / 4 = y := by omega
  have e3 : (y % 16 * 4 + z / 64) % 4 * 64 + z % 64 = z := by omega
  rw [e1, e2, e3]

/-- Decoding the encoding of the last chunk: the final quad is completed by
`=` padding for a 1- or 2-byte tail, which terminates `a2b_base64`. -/
theorem a2bAux_b2a : ∀ (bs : List Nat), (∀ x ∈ bs, x < 256) → ∀ acc : List Nat,
    a2bAux (encodeGroups bs ++ [10]) 0 0 acc = .ok (acc.reverse ++ bs)
  | [], _, acc => by simp [encodeGroups, a2bAux]
  | [x], hb, acc => by
    have hx : x < 256 := hb x (by simp)
    have hv1 : x / 4 < 64 := by omega
    have hv2 : x % 4 * 16 < 64 := by omega
    simp only [encodeGroups, List.cons_append, List.nil_append]
    rw [a2bAux_alpha0 _ _ (decodeByte_encodeByte _ hv1) (encodeByte_skipFacts _ hv1),
      a2bAux_alpha1 _ _ (decodeByte_encodeByte _ hv2) (encodeByte_skipFacts _ hv2)]
    have e1 : x / 4 * 4 + x % 4 * 16 / 16 = x := by omega
    rw [e1]
    simp [a2bAux, nextValid]
  | [x, y], hb, acc => by
    have hx : x < 256 := hb x (by simp)
    have hy : y < 256 := hb y (by simp)
    have hv1 : x / 4 < 64 := by omega
    have hv2 : x % 4 * 16 + y / 16 < 64 := by omega
    have hv3 : y % 16 * 4 < 64 := by omega
    simp only [encodeGroups, List.cons_append, List.nil_append]
    rw [a2bAux_alpha0 _ _ (decodeByte_encodeByte _ hv1) (encodeByte_skipFacts _ hv1),
      a2bAux_alpha1 _ _ (decodeByte_encodeByte _ hv2) (encodeByte_skipFacts _ hv2),
      a2bAux_alpha2 _ _ (decodeByte_encodeByte _ hv3) (encodeByte_skipFacts _ hv3)]
    have e1 : x / 4 * 4 + (x % 4 * 16 + y / 16) / 16 = x := by omega
    have e2 : (x % 4 * 16 + y / 16) % 16 * 16 + y % 16 * 4 / 4 = y := by omega
    rw [e1, e2]
    simp [a2bAux]
  | x :: y :: z :: t, hb, acc => by
    have hx : x < 256 := hb x (by simp)
    have hy : y < 256 := hb y (by simp)
    have hz : z < 256 := hb z (by simp)
    have hgroups : encodeGroups (x :: y :: z :: t) ++ [10] =
        encodeByte (x / 4) :: encodeByte (x % 4 * 16 + y / 16) ::
          encodeByte (y % 16 * 4 + z / 64) :: encodeByte (z % 64) ::
            (encodeGroups t ++ [10]) := by
      simp [encodeGroups]
    rw [hgroups, a2bAux_quad x y z hx hy hz,
      a2bAux_b2a t (fun u hu => hb u (by simp [hu])) (z :: y :: x :: acc)]
    simp

/-- Decoding the encoding of a full (length divisible by 3) chunk leaves the
state machine at a quad boundary and continues with the rest of the input;
the chunk's trailing newline is skipped. -/
theorem a2bAux_chunk : ∀ (bs : List Nat), bs.length % 3 = 0 → (∀ x ∈ bs, x < 256) →
    ∀ (rest acc : List Nat),
    a2bAux (b2a bs ++ rest) 0 0 acc = a2bAux rest 0 0 (bs.reverse ++ acc)
  | [], _, _, rest, acc => by simp [b2a, encodeGroups, a2bAux]
  | [x], h3, _, rest, acc => by simp at h3
  | [x, y], h3, _, rest, acc => by simp at h3
  | x :: y :: z :: t, h3, hb, rest, acc => by
    have hx : x < 256 := hb x (by simp)
    have hy : y < 256 := hb y (by simp)
    have hz : z < 256 := hb z (by simp)
    have hgroups : b2a (x :: y :: z :: t) ++ rest =
        encodeByte (x / 4) :: encodeByte (x % 4 * 16 + y / 16) ::
          encodeByte (y % 16 * 4 + z / 64) :: encodeByte (z % 64) ::
            (b2a t ++ rest) := by
      simp [b2a, encodeGroups]
    have h3t : t.length % 3 = 0 := by
      simp only [List.length_cons] at h3; omega
    rw [hgroups, a2bAux_quad x y z hx hy hz,
      a2bAux_chunk t h3t (fun u hu => hb u (by simp [hu])) rest (z :: y :: x :: acc)]
    simp

theorem chunksAux_nil (n : Nat) : chunksAux n [] = [] := by
  cases n <;> rfl

/-- The fuel of `chunksAux` is irrelevant once it is at least the length. -/
theorem chunksAux_fuel : ∀ (n m : Nat) (l : List Nat), l.length ≤ n → l.length ≤ m →
    chunksAux n l = chunksAux m l := by
  intro n
  induction n with
  | zero =>
    intro m l hn _
    have : l = [] := List.eq_nil_of_length_eq_zero (by omega)
    subst this
    simp [chunksAux_nil]
  | succ n ih =>
    intro m l hn hm
    match l, m with
    | [], _ => simp [chunksAux_nil]
    | x :: t, 0 => simp at hm
    | x :: t, m + 1 =>
      simp only [chunksAux]
      have hlen : ((x :: t).drop 57).length ≤ n := by
        simp only [List.length_drop, List.length_cons] at *
        omega
      have hlen2 : ((x :: t).drop 57).length ≤ m := by
        simp only [List.length_drop, List.length_cons] at *
        omega
      rw [ih m ((x :: t).drop 57) hlen hlen2]

/-- The defining equation of the 57-byte chunking. -/
theorem chunks57_eq (l : List Nat) :
    chunks57 l = if l = [] then [] else l.take 57 :: chunks57 (l.drop 57) := by
  match l with
  | [] => rfl
  | x :: t =>
    simp only [chunks57, List.length_cons, chunksAux, if_neg (List.cons_ne_nil x t)]
    have : chunksAux t.length ((x :: t).drop 57) =
        chunksAux ((x :: t).drop 57).length ((x :: t).drop 57) := by
      apply chunksAux_fuel
      · simp only [List.length_drop, List.length_cons]; omega
      · exact le_rfl
    rw [this]

theorem encodestring_nil : encodestring [] = [] := rfl

theorem encodestring_ne_nil (b : List Nat) (h : b ≠ []) :
    encodestring b = b2a (b.take 57) ++ encodestring (b.drop 57) := by
  unfold encodestring
  rw [chunks57_eq, if_neg h]
  simp

/-- `a2b_base64` inverts `encodestring`, accumulator form. -/
theorem a2bAux_encodestring (b : List Nat) (hb : ∀ x ∈ b, x < 256) (acc : List Nat) :
    a2bAux (encodestring b) 0 0 acc = .ok (acc.reverse ++ b) := by
  by_cases h : b = []
  · subst h
    simp [encodestring_nil, a2bAux]
  · rw [encodestring_ne_nil b h]
    by_cases hd : b.drop 57 = []
    · have hle : b.length ≤ 57 := by
        have := List.length_drop 57 b
        rw [hd] at this
        simp at this
        omega
      have htake : b.take 57 = b := List.take_of_length_le hle
      rw [hd, encodestring_nil, List.append_nil, htake]
      exact a2bAux_b2a b hb acc
    · have hlen : 57 < b.length := by
        by_contra hc
        push_neg at hc
        exact hd (List.drop_eq_nil_of_le hc)
      have htl : (b.take 57).length % 3 = 0 := by
        rw [List.length_take]
        omega
      rw [a2bAux_chunk (b.take 57) htl (fun u hu => hb u (List.mem_of_mem_take hu)) _ _,
        a2bAux_encodestring (b.drop 57) (fun u hu => hb u (List.mem_of_mem_drop hu))
          ((b.take 57).reverse ++ acc)]
      simp
termination_by b.length
decreasing_by
  simp only [List.length_drop]
  have : b ≠ [] := h
  have : 0 < b.length := List.length_pos.mpr this
  omega

/-- `base64.decodestring (base64.encodestring b) = b` for any byte string. -/
theorem decodestring_encodestring (b : List Nat) (hb : ∀ x ∈ b, x < 256) :
    a2b (encodestring b) = .ok b := by
  have h := a2bAux_encodestring b hb []
  simpa [a2b] using h

/-! ## Helper lemmas: shape of `encodestring` output -/

theorem getD_prop {p : Nat → Prop} : ∀ (l : List Nat) (v d : Nat),
    (∀ x ∈ l, p x) → p d → p (l.getD v d)
  | [], _, _, _, hd => hd
  | x :: xs, 0, d, hl, _ => by simpa using hl x (by simp)
  | x :: xs, v + 1, d, hl, hd => by
    simpa using getD_prop xs v d (fun u hu => hl u (by simp [hu])) hd

theorem encodeByte_lt (v : Nat) : encodeByte v < 128 :=
  getD_prop (p := fun x => x < 128) b64codes v 65 (by decide) (by decide)

theorem encodeByte_ne_newline (v : Nat) : encodeByte v ≠ 10 :=
  getD_prop (p := fun x => x ≠ 10) b64codes v 65 (by decide) (by decide)

theorem mem_encodeGroups : ∀ (bs : List Nat), ∀ c ∈ encodeGroups bs, c < 128 ∧ c ≠ 10
  | [], c, hc => by simp [encodeGroups] at hc
  | [x], c, hc => by
    simp only [encodeGroups, List.mem_cons, List.mem_singleton] at hc
    rcases hc with rfl | rfl | rfl | hc
    · exact ⟨encodeByte_lt _, encodeByte_ne_newline _⟩
    · exact ⟨encodeByte_lt _, encodeByte_ne_newline _⟩
    · omega
    · simp at hc; omega
  | [x, y], c, hc => by
    simp only [encodeGroups, List.mem_cons, List.mem_singleton] at hc
    rcases hc with rfl | rfl | rfl | hc
    · exact ⟨encodeByte_lt _, encodeByte_ne_newline _⟩
    · exact ⟨encodeByte_lt _, encodeByte_ne_newline _⟩
    · exact ⟨encodeByte_lt _, encodeByte_ne_newline _⟩
    · simp at hc; omega
  | x :: y :: z :: t, c, hc => by
    simp only [encodeGroups, List.mem_cons] at hc
    rcases hc with rfl | rfl | rfl | rfl | hc
    · exact ⟨encodeByte_lt _, encodeByte_ne_newline _⟩
    · exact ⟨encodeByte_lt _, encodeByte_ne_newline _⟩
    · exact ⟨encodeByte_lt _, encodeByte_ne_newline _⟩
    · exact ⟨encodeByte_lt _, encodeByte_ne_newline _⟩
    · exact mem_encodeGroups t c hc

theorem mem_encodestring_lt (b : List Nat) : ∀ c ∈ encodestring b, c < 128 := by
  intro c hc
  unfold encodestring at hc
  rw [List.mem_flatten] at hc
  obtain ⟨s, hs, hcs⟩ := hc
  rw [List.mem_map] at hs
  obtain ⟨chunk, _, rfl⟩ := hs
  rcases List.mem_append.mp hcs with h | h
  · exact (mem_encodeGroups chunk c h).1
  · simp at h; omega

/-- The base64 content `_read_file` returns is pure ASCII, so Python's
`content.encode('ascii')` in `_save_file` succeeds on it unchanged. -/
theorem asciiEncode_encodestring (b : List Nat) :
    asciiEncode (encodestring b) = some (encodestring b) := by
  unfold asciiEncode
  rw [if_pos]
  rw [List.all_eq_true]
  intro c hc
  simpa using mem_encodestring_lt b c hc

theorem length_encodeGroups : ∀ bs : List Nat,
    (encodeGroups bs).length = 4 * ((bs.length + 2) / 3)
  | [] => rfl
  | [_] => by simp [encodeGroups]
  | [_, _] => by simp [encodeGroups]
  | x :: y :: z :: t => by
    simp only [encodeGroups, List.length_cons, length_encodeGroups t]
    omega

theorem mem_chunksAux_length : ∀ (n : Nat) (l : List Nat), ∀ ch ∈ chunksAux n l,
    ch.length ≤ 57
  | _, [], ch, hch => by simp [chunksAux_nil] at hch
  | 0, _ :: _, ch, hch => by simp [chunksAux] at hch
  | n + 1, x :: t, ch, hch => by
    simp only [chunksAux, List.mem_cons] at hch
    rcases hch with rfl | hch
    · simp [List.length_take]
    · exact mem_chunksAux_length n ((x :: t).drop 57) ch hch

theorem mem_chunks57_length (l : List Nat) : ∀ ch ∈ chunks57 l, ch.length ≤ 57 :=
  mem_chunksAux_length l.length l

theorem chunks57_ne_nil (l : List Nat) (h : l ≠ []) : chunks57 l ≠ [] := by
  rw [chunks57_eq, if_neg h]
  simp

/-- MIME line decomposition of `encodestring`: one line (at most 76
characters, no embedded newline) plus a trailing newline per 57-byte chunk. -/
theorem encodestring_lines (b : List Nat) (h : b ≠ []) :
    ∃ lines : List (List Nat), lines ≠ [] ∧
      (∀ l ∈ lines, l.length ≤ 76 ∧ 10 ∉ l) ∧
      encodestring b = (lines.map (fun l => l ++ [10])).flatten := by
  refine ⟨(chunks57 b).map encodeGroups, ?_, ?_, ?_⟩
  · simp [chunks57_ne_nil b h]
  · intro l hl
    rw [List.mem_map] at hl
    obtain ⟨ch, hch, rfl⟩ := hl
    constructor
    · rw [length_encodeGroups]
      have := mem_chunks57_length b ch hch
      omega
    · intro hmem
      exact (mem_encodeGroups ch 10 hmem).2 rfl
  · unfold encodestring
    rw [List.map_map]
    rfl

/-! ## Helper lemmas: filesystem bookkeeping -/

theorem underDir_self (d : List Char) : underDir d d = true := by
  simp [underDir]

/-- Rolling back a freshly staged directory restores the state exactly:
removing the staging directory (and the temporary file inside it) undoes the
staging, provided nothing pre-existing lives under the staging directory. -/
theorem rmtree_fresh (st : FsState) (tdir tpath : List Char)
    (hdirs : ∀ d ∈ st.dirs, underDir tdir d = false)
    (hfiles : ∀ f ∈ st.files, underDir tdir f.1 = false)
    (hself : underDir tdir tpath = true) :
    rmtree (setFile { st with dirs := tdir :: st.dirs } tpath []) tdir = st := by
  have hf1 : st.files.filter (fun f => f.1 != tpath) = st.files := by
    apply List.filter_eq_self.mpr
    intro f hf
    rw [bne_iff_ne]
    intro he
    have hcontra := hfiles f hf
    rw [he, hself] at hcontra
    cases hcontra
  have h2 : st.files.filter (fun f => ! underDir tdir f.1) = st.files := by
    apply List.filter_eq_self.mpr
    intro f hf
    simp [hfiles f hf]
  have h1 : st.dirs.filter (fun x => ! underDir tdir x) = st.dirs := by
    apply List.filter_eq_self.mpr
    intro d hd
    simp [hdirs d hd]
  unfold rmtree setFile
  simp only [List.filter_cons, underDir_self, hself, Bool.not_true, hf1, h2, h1]
  simp

/-- Claim C2: when the body of `atomic_writing` raises, the handle is closed,
the staging directory is deleted recursively, and the body's failure is
propagated unchanged; the filesystem — in particular any pre-existing
destination file — is exactly as before the write, with no residual staging
directory.  The freshness hypotheses express what `tempfile.mkdtemp`
guarantees: the staging directory is new and contains nothing pre-existing,
with the temporary file lying inside it. -/
theorem C2_atomic_writing_body_failure (st : FsState) (p tmpName : List Char)
    (text : Bool) (e : Exc)
    (hlink : islink st p = false)
    (hperm : pDirname p ∉ st.noperm)
    (hdirs : ∀ d ∈ st.dirs, underDir (awTmpDir st p tmpName) d = false)
    (hfiles : ∀ f ∈ st.files, underDir (awTmpDir st p tmpName) f.1 = false)
    (hself : underDir (awTmpDir st p tmpName) (awTmpPath st p tmpName) = true) :
    atomic_writing st p text (.error e) tmpName (.ok ()) =
      { result := .error e, st := st, closed := true } := by
  have hdest : awDest st p = p := by simp [awDest, hlink]
  simp only [atomic_writing, hdest, hperm, if_neg, ite_false, if_false]
  rw [rmtree_fresh st _ _ hdirs hfiles hself]

/-- Witness for C2 at a concrete state with a pre-existing destination. -/
theorem C2_witness :
    atomic_writing
        { files := [("/r/f.txt".data, [1, 2])], dirs := [], links := [], noperm := [] }
        "/r/f.txt".data true (.error (.generic "boom".data)) "XYZ".data (.ok ()) =
      { result := .error (.generic "boom".data),
        st := { files := [("/r/f.txt".data, [1, 2])], dirs := [], links := [], noperm := [] },
        closed := true } :=
  C2_atomic_writing_body_failure _ _ _ _ _ (by decide) (by decide) (by decide) (by decide)
    (by decide)

/-- Counterexample to claim C3 as stated: at this input the body fails with
`generic "boom"`, the staging cleanup fails with `osErr 5`, and the
exception propagated to the caller is the cleanup failure, not the body's
original failure. -/
theorem C3_counterexample :
    (atomic_writing { files := [], dirs := [], links := [], noperm := [] }
        "/r/f.txt".data true (.error (.generic "boom".data)) "XYZ".data
        (.error (.osErr 5 "/r/f.txtXYZ".data))).result ≠
      .error (.generic "boom".data) ∧
    (atomic_writing { files := [], dirs := [], links := [], noperm := [] }
        "/r/f.txt".data true (.error (.generic "boom".data)) "XYZ".data
        (.error (.osErr 5 "/r/f.txtXYZ".data))).result =
      .error (.osErr 5 "/r/f.txtXYZ".data) := by
  constructor
  · decide
  · rfl

/-- Claim C3 (amended): if, after a body failure, `shutil.rmtree` on the
staging directory itself fails, the cleanup failure is what propagates to
the caller — the original body failure is masked (it survives only as the
chained exception context), contrary to the spec's log-and-prefer-the-
original requirement. -/
theorem C3_cleanup_failure_masks (st : FsState) (p tmpName : List Char)
    (text : Bool) (e e2 : Exc)
    (hlink : islink st p = false)
    (hperm : pDirname p ∉ st.noperm) :
    (atomic_writing st p text (.error e) tmpName (.error e2)).result = .error e2 := by
  have hdest : awDest st p = p := by simp [awDest, hlink]
  simp only [atomic_writing, hdest]
  rw [if_neg hperm]

/-- Witness for the amended C3. -/
theorem C3_witness :
    (atomic_writing { files := [], dirs := [], links := [], noperm := [] }
        "/r/f.txt".data true (.error (.generic "b".data)) "X".data
        (.error (.osErr 5 []))).result = .error (.osErr 5 []) :=
  C3_cleanup_failure_masks _ _ _ _ _ _ (by decide) (by decide)

/-- Claim C6: `_save_file` with a format other than `text`/`base64` fails
with the `BadFormat` error (`HTTPError 400`) and performs no filesystem
mutation — the check precedes any encoding, staging or write, so the
returned state is exactly the input state. -/
theorem C6_bad_format (root_dir : List Char) (st : FsState) (p : List Char)
    (content : List Nat) (format tmpName : List Char)
    (h1 : format ≠ "text".data) (h2 : format ≠ "base64".data) :
    _save_file root_dir st p content format tmpName =
      (.error (.http 400 "Must specify format of file contents as text or base64".data), st) := by
  unfold _save_file
  rw [if_pos (not_or.mpr ⟨h1, h2⟩)]

/-- Witness for C6 with format `"xml"`. -/
theorem C6_witness :
    _save_file "/r".data { files := [], dirs := [], links := [], noperm := [] }
        "/r/f".data [104] "xml".data "T".data =
      (.error (.http 400 "Must specify format of file contents as text or base64".data),
        { files := [], dirs := [], links := [], noperm := [] }) :=
  C6_bad_format _ _ _ _ _ _ (by decide) (by decide)

/-- Claim C10: saving with format `base64` when the content has a code point
outside ASCII fails in the `content.encode('ascii')` step — before base64
decoding is attempted and before any staging or write — with the
`EncodingError` (`HTTPError 400 "Encoding error saving ..."`), leaving the
filesystem unchanged. -/
theorem C10_nonascii_base64 (root_dir : List Char) (st : FsState) (p : List Char)
    (content : List Nat) (tmpName : List Char) (c : Nat)
    (hc : c ∈ content) (h128 : 128 ≤ c) :
    _save_file root_dir st p content "base64".data tmpName =
      (.error (.http 400 ("Encoding error saving ".data ++ p ++
        ": ascii codec cannot encode character".data)), st) := by
  have hascii : asciiEncode content = none := by
    unfold asciiEncode
    rw [if_neg]
    intro hall
    rw [List.all_eq_true] at hall
    have := hall c hc
    simp at this
    omega
  unfold _save_file
  rw [if_neg (not_not_intro (Or.inr rfl))]
  rw [if_neg (by decide), hascii]

/-- Witness for C10 with a single non-ASCII code point. -/
theorem C10_witness :
    _save_file "/r".data { files := [], dirs := [], links := [], noperm := [] }
        "/r/f".data [233] "base64".data "T".data =
      (.error (.http 400 ("Encoding error saving ".data ++ "/r/f".data ++
        ": ascii codec cannot encode character".data)),
        { files := [], dirs := [], links := [], noperm := [] }) :=
  C10_nonascii_base64 _ _ _ _ _ 233 (by decide) (by decide)

/-- A convenient empty filesystem for concrete instances. -/
def emptyFs : FsState := { files := [], dirs := [], links := [], noperm := [] }

/-- `perm_to_403` changes nothing about success. -/
theorem perm_to_403_ok {α : Type} (root os : List Char) (r : Except Exc α) (v : α) :
    perm_to_403 root os r = .ok v ↔ r = .ok v := by
  cases r with
  | ok a => simp [perm_to_403]
  | error e =>
    cases e with
    | http s m => simp [perm_to_403]
    | osErr code f =>
      simp only [perm_to_403]
      split <;> simp
    | generic t => simp [perm_to_403]

/-- A successful `atomic_writing` commits the body's bytes to the
destination (via the rename), reports success, and does not change the
permission table. -/
theorem atomic_writing_ok (st : FsState) (p tmpName : List Char) (text : Bool)
    (buf : List Nat)
    (hlink : islink st p = false)
    (hperm : pDirname p ∉ st.noperm)
    (hdest : underDir (awTmpDir st p tmpName) p = false) :
    (atomic_writing st p text (.ok buf) tmpName (.ok ())).result = .ok () ∧
    lookupFile (atomic_writing st p text (.ok buf) tmpName (.ok ())).st p = some buf ∧
    (atomic_writing st p text (.ok buf) tmpName (.ok ())).st.noperm = st.noperm := by
  have hdestp : awDest st p = p := by simp [awDest, hlink]
  simp only [atomic_writing, hdestp]
  rw [if_neg hperm]
  refine ⟨rfl, ?_, rfl⟩
  simp only [rmtree, setFile, removeFile, lookupFile, List.filter_cons]
  rw [show (! underDir (awTmpDir st p tmpName) p) = true by rw [hdest]; rfl]
  simp only [if_true]
  rw [List.find?_cons_of_pos _ (by simp)]
  rfl

/-- Reading back a file that exists and is readable: the two format hints
this development needs. -/
theorem read_file_of_lookup (root_dir : List Char) (st : FsState) (p : List Char)
    (b : List Nat) (hf : lookupFile st p = some b) (hperm : p ∉ st.noperm) :
    (_read_file root_dir st p none =
      (match utf8Decode b with
       | some s => .ok (s, "text".data)
       | none => .ok (encodestring b, "base64".data))) ∧
    _read_file root_dir st p (some "base64".data) = .ok (encodestring b, "base64".data) := by
  have hisf : isFile st p = true := by simp [isFile, hf]
  have hopen : io_open_rb st p = .ok b := by
    unfold io_open_rb
    rw [if_neg hperm, hf]
  have hw : perm_to_403 root_dir p (io_open_rb st p) = .ok b := by
    rw [hopen]
    rfl
  constructor
  · unfold _read_file
    rw [if_neg (not_not_intro hisf), hw]
    simp
  · unfold _read_file
    rw [if_neg (not_not_intro hisf), hw]
    rfl

/-- Counterexample to claim C4 as stated: `"aGVsbG8="` is a valid base64
string, but writing it with format `base64` and reading it back with hint
`base64` returns the MIME re-encoding `"aGVsbG8=\n"` (with trailing
newline), not the same string. -/
theorem C4_counterexample :
    (_save_file "/r".data emptyFs "/r/f".data (strCodes "aGVsbG8=") "base64".data
      "T".data).1 = Except.ok () ∧
    _read_file "/r".data
        (_save_file "/r".data emptyFs "/r/f".data (strCodes "aGVsbG8=") "base64".data
          "T".data).2
        "/r/f".data (some "base64".data) =
      .ok (strCodes "aGVsbG8=\n", "base64".data) ∧
    strCodes "aGVsbG8=\n" ≠ strCodes "aGVsbG8=" := by
  refine ⟨rfl, rfl, by decide⟩

/-- Claim C4 (amended): the text round trip holds as stated — writing
`"hello"` with format `text` and reading with `auto` returns
`("hello", "text")`.  The base64 round trip returns the same string only
for MIME-canonical base64 strings, i.e. those in the image of the encoder:
for every byte string `b`, writing `encodestring b` with format `base64`
and reading back with hint `base64` returns exactly
`(encodestring b, "base64")`.  (For non-canonical valid base64 input the
read-back is the canonical re-encoding of the decoded bytes, as the
counterexample shows.) -/
theorem C4_roundtrip (root_dir : List Char) (st : FsState) (p tmpName : List Char)
    (hlink : islink st p = false)
    (hperm : pDirname p ∉ st.noperm)
    (hpermp : p ∉ st.noperm)
    (hdest : underDir (awTmpDir st p tmpName) p = false) :
    ((_save_file root_dir st p (strCodes "hello") "text".data tmpName).1 = .ok () ∧
      _read_file root_dir
        (_save_file root_dir st p (strCodes "hello") "text".data tmpName).2 p none =
        .ok (strCodes "hello", "text".data)) ∧
    (∀ b : List Nat, (∀ x ∈ b, x < 256) →
      (_save_file root_dir st p (encodestring b) "base64".data tmpName).1 = .ok () ∧
      _read_file root_dir
          (_save_file root_dir st p (encodestring b) "base64".data tmpName).2 p
          (some "base64".data) =
        .ok (encodestring b, "base64".data)) := by
  constructor
  · obtain ⟨hres, hlook, hnp⟩ := atomic_writing_ok st p tmpName false
      (utf8Encode (strCodes "hello")) hlink hperm hdest
    have hsave : _save_file root_dir st p (strCodes "hello") "text".data tmpName =
        (perm_to_403 root_dir p
          (atomic_writing st p false (.ok (utf8Encode (strCodes "hello"))) tmpName
            (.ok ())).result,
         (atomic_writing st p false (.ok (utf8Encode (strCodes "hello"))) tmpName
            (.ok ())).st) := by
      unfold _save_file
      rw [if_neg (not_not_intro (Or.inl rfl)), if_pos rfl]
    have hread := read_file_of_lookup root_dir
      (atomic_writing st p false (.ok (utf8Encode (strCodes "hello"))) tmpName (.ok ())).st
      p (utf8Encode (strCodes "hello")) hlook (by rw [hnp]; exact hpermp)
    constructor
    · rw [hsave]
      show perm_to_403 root_dir p _ = _
      rw [hres]
      rfl
    · rw [hsave]
      exact hread.1
  · intro b hb
    obtain ⟨hres, hlook, hnp⟩ := atomic_writing_ok st p tmpName false b hlink hperm hdest
    have hsave : _save_file root_dir st p (encodestring b) "base64".data tmpName =
        (perm_to_403 root_dir p
          (atomic_writing st p false (.ok b) tmpName (.ok ())).result,
         (atomic_writing st p false (.ok b) tmpName (.ok ())).st) := by
      unfold _save_file
      rw [if_neg (not_not_intro (Or.inr rfl)), if_neg (by decide), asciiEncode_encodestring]
      simp only [decodestring_encodestring b hb]
    have hread := read_file_of_lookup root_dir
      (atomic_writing st p false (.ok b) tmpName (.ok ())).st p b hlook
      (by rw [hnp]; exact hpermp)
    constructor
    · rw [hsave]
      show perm_to_403 root_dir p _ = _
      rw [hres]
      rfl
    · rw [hsave]
      exact hread.2

/-- Witness for the amended C4, text and base64 parts at concrete inputs. -/
theorem C4_witness :
    ((_save_file "/r".data emptyFs "/r/f".data (strCodes "hello") "text".data
        "T".data).1 = .ok () ∧
      _read_file "/r".data
        (_save_file "/r".data emptyFs "/r/f".data (strCodes "hello") "text".data
          "T".data).2 "/r/f".data none =
        .ok (strCodes "hello", "text".data)) ∧
    ((_save_file "/r".data emptyFs "/r/f".data (encodestring [0, 1, 255]) "base64".data
        "T".data).1 = .ok () ∧
      _read_file "/r".data
          (_save_file "/r".data emptyFs "/r/f".data (encodestring [0, 1, 255])
            "base64".data "T".data).2 "/r/f".data (some "base64".data) =
        .ok (encodestring [0, 1, 255], "base64".data)) :=
  ⟨(C4_roundtrip "/r".data emptyFs "/r/f".data "T".data (by decide) (by decide)
      (by decide) (by decide)).1,
   (C4_roundtrip "/r".data emptyFs "/r/f".data "T".data (by decide) (by decide)
      (by decide) (by decide)).2 [0, 1, 255] (by decide)⟩

/-- Claim C5: a file whose bytes are not valid UTF-8 read with explicit
`text` format fails with the `NotUTF8` error (`HTTPError 400 "... is not
UTF-8 encoded"`), while reading the same file with `auto` (format
unspecified) succeeds and returns the base64 encoding of the raw bytes with
format `"base64"`. -/
theorem C5_read_non_utf8 (root_dir : List Char) (st : FsState) (p : List Char)
    (b : List Nat)
    (hf : lookupFile st p = some b)
    (hperm : p ∉ st.noperm)
    (hdec : utf8Decode b = none) :
    _read_file root_dir st p (some "text".data) =
      .error (.http 400 (p ++ " is not UTF-8 encoded".data)) ∧
    _read_file root_dir st p none = .ok (encodestring b, "base64".data) := by
  have hisf : isFile st p = true := by simp [isFile, hf]
  have hopen : io_open_rb st p = .ok b := by
    unfold io_open_rb
    rw [if_neg hperm, hf]
  have hw : perm_to_403 root_dir p (io_open_rb st p) = .ok b := by
    rw [hopen]
    rfl
  constructor
  · unfold _read_file
    rw [if_neg (not_not_intro hisf), hw]
    simp [hdec]
  · have h := (read_file_of_lookup root_dir st p b hf hperm).1
    rw [h, hdec]

/-- Witness for C5 on the single byte `0xff`. -/
theorem C5_witness :
    _read_file "/r".data
        { files := [("/r/f".data, [255])], dirs := [], links := [], noperm := [] }
        "/r/f".data (some "text".data) =
      .error (.http 400 ("/r/f".data ++ " is not UTF-8 encoded".data)) ∧
    _read_file "/r".data
        { files := [("/r/f".data, [255])], dirs := [], links := [], noperm := [] }
        "/r/f".data none = .ok (encodestring [255], "base64".data) :=
  C5_read_non_utf8 _ _ _ [255] (by decide) (by decide) (by decide)

/-! ## Helper lemmas: path inversion for `perm_to_403` -/

theorem dropWhile_beq_of_not_mem (c : Char) (l : List Char) (h : c ∉ l) :
    l.dropWhile (· == c) = l := by
  cases l with
  | nil => rfl
  | cons a t =>
    rw [List.dropWhile_cons]
    rw [if_neg (by
      intro hbeq
      rw [beq_iff_eq] at hbeq
      apply h
      rw [← hbeq]
      exact List.mem_cons_self a t)]

theorem stripChar_no_sep (vp : List Char) (h : '/' ∉ vp) :
    stripChar '/' ('/' :: vp) = vp := by
  unfold stripChar rstripChar
  rw [List.dropWhile_cons, if_pos (by simp)]
  rw [dropWhile_beq_of_not_mem _ _ h]
  rw [dropWhile_beq_of_not_mem _ _ (by simpa using h)]
  exact List.reverse_reverse vp

theorem splitChar_no_sep : ∀ (l : List Char), '/' ∉ l → splitChar '/' l = [l]
  | [], _ => rfl
  | c :: t, h => by
    have hc : c ≠ '/' := fun he => h (by rw [← he]; exact List.mem_cons_self c t)
    have ht := splitChar_no_sep t (fun hm => h (List.mem_cons_of_mem c hm))
    simp [splitChar, ht, hc]

/-- Inverting resolution strips the root: the API path of
`root ++ "/" ++ vp` relative to `root` is `vp` (single-component case). -/
theorem to_api_path_strip (root vp : List Char) (hvp : vp ≠ []) (hs : '/' ∉ vp) :
    to_api_path (root ++ '/' :: vp) root = vp := by
  unfold to_api_path
  rw [if_pos (by
    have : root <+: root ++ '/' :: vp := List.prefix_append root ('/' :: vp)
    exact List.isPrefixOf_iff_prefix.mpr this)]
  rw [List.drop_left]
  simp only [stripChar_no_sep vp hs, splitChar_no_sep vp hs]
  simp [joinChar, hvp]

/-- Claim C7: `perm_to_403` — through which both wrapped operations
(`FileManagerMixin.open` and `FileManagerMixin.atomic_writing`) route every
`OSError`/`IOError` — re-raises permission failures (`EPERM`/`EACCES`) as
`HTTPError 403` whose message carries the virtual path obtained by
inverting resolution against root; the real filesystem path never occurs in
that message; and every other OS failure propagates unchanged. -/
theorem C7_perm_errors (root vp fname f2 : List Char) (code code2 : Nat)
    (st st2 : FsState) (text : Bool) (body : Except Exc (List Nat))
    (tmpName : List Char) (rmtreeR : Except Exc Unit)
    (hcode : code = EPERM ∨ code = EACCES)
    (hcode2 : code2 ≠ EPERM ∧ code2 ≠ EACCES)
    (hvp : vp ≠ []) (hs : '/' ∉ vp)
    (hst : root ++ '/' :: vp ∈ st.noperm)
    (hlink2 : islink st2 (root ++ '/' :: vp) = false)
    (hst2 : pDirname (root ++ '/' :: vp) ∈ st2.noperm) :
    perm_to_403 (α := Unit) root (root ++ '/' :: vp) (.error (.osErr code fname)) =
      .error (.http 403 ("Permission denied: ".data ++ vp)) ∧
    ¬ List.IsInfix (root ++ '/' :: vp) ("Permission denied: ".data ++ vp) ∧
    perm_to_403 (α := Unit) root (root ++ '/' :: vp) (.error (.osErr code2 f2)) =
      .error (.osErr code2 f2) ∧
    FileManagerMixin_open root st (root ++ '/' :: vp) =
      .error (.http 403 ("Permission denied: ".data ++ vp)) ∧
    (FileManagerMixin_atomic_writing root st2 (root ++ '/' :: vp) text body tmpName
        rmtreeR).result =
      .error (.http 403 ("Permission denied: ".data ++ vp)) := by
  have hmsg := to_api_path_strip root vp hvp hs
  have hne : root ++ '/' :: vp ≠ [] := by simp
  refine ⟨?_, ?_, ?_, ?_, ?_⟩
  · simp only [perm_to_403]
    rw [if_pos hcode, if_neg hne, hmsg]
  · intro hinf
    have hmem : ('/' : Char) ∈ root ++ '/' :: vp := by simp
    have h2 := hinf.subset hmem
    rw [List.mem_append] at h2
    rcases h2 with h2 | h2
    · revert h2
      decide
    · exact hs h2
  · simp only [perm_to_403]
    rw [if_neg (not_or.mpr hcode2)]
  · unfold FileManagerMixin_open io_open_rb
    rw [if_pos hst]
    simp [perm_to_403, hne, hmsg]
  · have hdest : awDest st2 (root ++ '/' :: vp) = root ++ '/' :: vp := by
      simp [awDest, hlink2]
    unfold FileManagerMixin_atomic_writing
    simp only [atomic_writing, hdest]
    rw [if_pos hst2]
    simp [perm_to_403, hne, hmsg]

/-- Witness for C7 at concrete root `/srv`, virtual path `a.txt`. -/
theorem C7_witness :
    perm_to_403 (α := Unit) "/srv".data ("/srv".data ++ '/' :: "a.txt".data)
        (.error (.osErr 13 [])) =
      .error (.http 403 ("Permission denied: ".data ++ "a.txt".data)) ∧
    ¬ List.IsInfix ("/srv".data ++ '/' :: "a.txt".data)
        ("Permission denied: ".data ++ "a.txt".data) ∧
    perm_to_403 (α := Unit) "/srv".data ("/srv".data ++ '/' :: "a.txt".data)
        (.error (.osErr 2 [])) = .error (.osErr 2 []) ∧
    FileManagerMixin_open "/srv".data
        { files := [], dirs := [], links := [], noperm := ["/srv/a.txt".data] }
        ("/srv".data ++ '/' :: "a.txt".data) =
      .error (.http 403 ("Permission denied: ".data ++ "a.txt".data)) ∧
    (FileManagerMixin_atomic_writing "/srv".data
        { files := [], dirs := [], links := [], noperm := ["/srv".data] }
        ("/srv".data ++ '/' :: "a.txt".data) false (.ok []) "T".data (.ok ())).result =
      .error (.http 403 ("Permission denied: ".data ++ "a.txt".data)) :=
  C7_perm_errors "/srv".data "a.txt".data [] [] 13 2 _ _ false (.ok []) "T".data (.ok ())
    (Or.inr rfl) (by decide) (by decide) (by decide) (by decide) (by decide) (by decide)

/-- Claim C8: whenever `_read_file` returns with format `"base64"` — under
an explicit `base64` hint or via the `auto` fallback — the content is the
MIME-style base64 encoding (`base64.encodestring`) of the file's raw bytes:
for a non-empty file it decomposes into lines of at most 76 characters each
followed by a newline (so in particular it carries a trailing newline, not
a canonical single-line base64 form). -/
theorem C8_base64_mime (root_dir : List Char) (st : FsState) (p : List Char)
    (fmt : Option (List Char)) (c : List Nat)
    (h : _read_file root_dir st p fmt = .ok (c, "base64".data)) :
    ∃ b, lookupFile st p = some b ∧ c = encodestring b ∧
      (b ≠ [] → ∃ lines : List (List Nat), lines ≠ [] ∧
        (∀ l ∈ lines, l.length ≤ 76 ∧ 10 ∉ l) ∧
        c = (lines.map (fun l => l ++ [10])).flatten) := by
  unfold _read_file at h
  by_cases hisf : isFile st p = true
  · rw [if_neg (not_not_intro hisf)] at h
    cases hw : perm_to_403 root_dir p (io_open_rb st p) with
    | error e =>
      simp only [hw] at h
      exact absurd h (by simp)
    | ok bcontent =>
      simp only [hw] at h
      have hopen : io_open_rb st p = .ok bcontent := (perm_to_403_ok _ _ _ _).mp hw
      have hlook : lookupFile st p = some bcontent := by
        unfold io_open_rb at hopen
        by_cases hnp : p ∈ st.noperm
        · rw [if_pos hnp] at hopen
          exact absurd hopen (by simp)
        · rw [if_neg hnp] at hopen
          cases hl : lookupFile st p with
          | none =>
            rw [hl] at hopen
            exact absurd hopen (by simp)
          | some bb =>
            rw [hl] at hopen
            injection hopen with hbb
            exact congrArg some hbb
      by_cases hfmt : fmt = none ∨ fmt = some "text".data
      · rw [if_pos hfmt] at h
        cases hdec : utf8Decode bcontent with
        | some s =>
          simp only [hdec] at h
          simp only [Except.ok.injEq, Prod.mk.injEq] at h
          exact absurd h.2 (by decide)
        | none =>
          simp only [hdec] at h
          by_cases htext : fmt = some "text".data
          · rw [if_pos htext] at h
            exact absurd h (by simp)
          · rw [if_neg htext] at h
            simp only [Except.ok.injEq, Prod.mk.injEq] at h
            obtain ⟨h1, -⟩ := h
            subst h1
            exact ⟨bcontent, hlook, rfl, fun hne => encodestring_lines bcontent hne⟩
      · rw [if_neg hfmt] at h
        simp only [Except.ok.injEq, Prod.mk.injEq] at h
        obtain ⟨h1, -⟩ := h
        subst h1
        exact ⟨bcontent, hlook, rfl, fun hne => encodestring_lines bcontent hne⟩
  · rw [if_pos hisf] at h
    exact absurd h (by simp)

/-- Witness for C8 on the bytes `0x00 0x01 0xff` read with hint `base64`. -/
theorem C8_witness :
    ∃ b, lookupFile
        { files := [("/r/f".data, [0, 1, 255])], dirs := [], links := [], noperm := [] }
        "/r/f".data = some b ∧
      encodestring [0, 1, 255] = encodestring b ∧
      (b ≠ [] → ∃ lines : List (List Nat), lines ≠ [] ∧
        (∀ l ∈ lines, l.length ≤ 76 ∧ 10 ∉ l) ∧
        encodestring [0, 1, 255] = (lines.map (fun l => l ++ [10])).flatten) :=
  C8_base64_mime "/r".data
    { files := [("/r/f".data, [0, 1, 255])], dirs := [], links := [], noperm := [] }
    "/r/f".data (some "base64".data) (encodestring [0, 1, 255]) (by rfl)

/-- A successful `atomic_writing` reports success as long as `mkdtemp` is
allowed to create the staging directory. -/
theorem atomic_ok_result (st : FsState) (p tmpName : List Char) (text : Bool)
    (bc : List Nat) (hp : pDirname (awDest st p) ∉ st.noperm) :
    (atomic_writing st p text (.ok bc) tmpName (.ok ())).result = .ok () := by
  simp only [atomic_writing]
  rw [if_neg hp]

/-- Claim C9: each error kind carries a fixed HTTP status — `OutOfRoot` is
404, `Forbidden` is 403, and `NotAFile`, `NotUTF8`, `UnreadableDocument`,
`BadFormat` and `EncodingError` are all 400 — so status alone separates
containment and permission failures from the rest, but not the 400-class
kinds from each other (the statuses 404, 403 and 400 being pairwise
distinct). -/
theorem C9_status_codes :
    (∀ root_dir path e, _get_os_path root_dir path = .error e →
      e = .http 404 (path ++ " is outside root contents directory".data)) ∧
    (∀ root os fname code, (code = EPERM ∨ code = EACCES) →
      ∃ m, perm_to_403 (α := Unit) root os (.error (.osErr code fname)) =
        .error (.http 403 m)) ∧
    (∀ root st p fmt e, p ∉ st.noperm → _read_file root st p fmt = .error e →
      ∃ m, e = .http 400 m) ∧
    (∀ root st p content format tmpName e, pDirname (awDest st p) ∉ st.noperm →
      (_save_file root st p content format tmpName).1 = .error e →
      ∃ m, e = .http 400 m) ∧
    (∀ (α : Type) root st p (parse : List Nat → Except (List Char) α) e,
      p ∉ st.noperm → lookupFile st p ≠ none →
      _read_notebook root st p parse = .error e → ∃ m, e = .http 400 m) ∧
    ((404 : Nat) ≠ 403 ∧ (404 : Nat) ≠ 400 ∧ (403 : Nat) ≠ 400) := by
  refine ⟨?_, ?_, ?_, ?_, ?_, by omega, by omega, by omega⟩
  · intro root_dir path e h
    unfold _get_os_path at h
    simp only [] at h
    split at h
    · injection h with h1
      exact h1.symm
    · exact absurd h (by simp)
  · intro root os fname code hcode
    simp only [perm_to_403]
    rw [if_pos hcode]
    exact ⟨_, rfl⟩
  · intro root st p fmt e hnp h
    unfold _read_file at h
    by_cases hisf : isFile st p = true
    · rw [if_neg (not_not_intro hisf)] at h
      have hopen : ∃ b, io_open_rb st p = .ok b := by
        unfold io_open_rb
        rw [if_neg hnp]
        cases hl : lookupFile st p with
        | some b => exact ⟨b, rfl⟩
        | none =>
          unfold isFile at hisf
          rw [hl] at hisf
          simp at hisf
      obtain ⟨b, hob⟩ := hopen
      have hw : perm_to_403 root p (io_open_rb st p) = .ok b := by
        rw [hob]
        rfl
      simp only [hw] at h
      by_cases hfmt : fmt = none ∨ fmt = some "text".data
      · rw [if_pos hfmt] at h
        cases hdec : utf8Decode b with
        | some s =>
          simp only [hdec] at h
          exact absurd h (by simp)
        | none =>
          simp only [hdec] at h
          by_cases ht : fmt = some "text".data
          · rw [if_pos ht] at h
            injection h with h1
            exact ⟨_, h1.symm⟩
          · rw [if_neg ht] at h
            exact absurd h (by simp)
      · rw [if_neg hfmt] at h
        exact absurd h (by simp)
    · rw [if_pos hisf] at h
      injection h with h1
      exact ⟨_, h1.symm⟩
  · intro root st p content format tmpName e hperm h
    unfold _save_file at h
    split at h
    · injection h with h1
      exact ⟨_, h1.symm⟩
    · by_cases hfmt : format = "text".data
      · rw [if_pos hfmt] at h
        simp only [] at h
        rw [atomic_ok_result st p tmpName false (utf8Encode content) hperm] at h
        exact absurd h (by simp [perm_to_403])
      · rw [if_neg hfmt] at h
        simp only [] at h
        cases hascii : asciiEncode content with
        | none =>
          simp only [hascii] at h
          injection h with h1
          exact ⟨_, h1.symm⟩
        | some b64 =>
          simp only [hascii] at h
          cases hdec : a2b b64 with
          | error m =>
            simp only [hdec] at h
            injection h with h1
            exact ⟨_, h1.symm⟩
          | ok bs =>
            simp only [hdec] at h
            rw [atomic_ok_result st p tmpName false bs hperm] at h
            exact absurd h (by simp [perm_to_403])
  · intro α root st p parse e hnp hlook h
    unfold _read_notebook at h
    cases hl : lookupFile st p with
    | none => exact absurd hl hlook
    | some b =>
      have hob : io_open_rb st p = .ok b := by
        unfold io_open_rb
        rw [if_neg hnp, hl]
      have hw : perm_to_403 root p (io_open_rb st p) = .ok b := by
        rw [hob]
        rfl
      simp only [hw] at h
      cases hp : parse b with
      | ok v =>
        simp only [hp] at h
        exact absurd h (by simp)
      | error m =>
        simp only [hp] at h
        injection h with h1
        exact ⟨_, h1.symm⟩

/-- Witness for C9: each branch instantiated at a concrete input. -/
theorem C9_witness :
    ((.http 404 ("../../etc".data ++ " is outside root contents directory".data) : Exc) =
      .http 404 ("../../etc".data ++ " is outside root contents directory".data)) ∧
    (∃ m, perm_to_403 (α := Unit) "/srv".data "/srv/a".data (.error (.osErr 13 [])) =
      .error (.http 403 m)) ∧
    (∃ m, (.http 400 ("Cannot read non-file ".data ++ "/r/f".data) : Exc) = .http 400 m) ∧
    (∃ m, (.http 400 "Must specify format of file contents as text or base64".data : Exc) =
      .http 400 m) ∧
    (∃ m, (.http 400 ("Unreadable Notebook: ".data ++ "/r/f".data ++ " ".data ++
      "bad".data) : Exc) = .http 400 m) :=
  ⟨C9_status_codes.1 "/r".data "../../etc".data
      (.http 404 ("../../etc".data ++ " is outside root contents directory".data)) rfl ▸ rfl,
   C9_status_codes.2.1 "/srv".data "/srv/a".data [] 13 (Or.inr rfl),
   C9_status_codes.2.2.1 "/r".data emptyFs "/r/f".data none
     (.http 400 ("Cannot read non-file ".data ++ "/r/f".data)) (by decide) rfl,
   C9_status_codes.2.2.2.1 "/r".data emptyFs "/r/f".data [] "xml".data "T".data
     (.http 400 "Must specify format of file contents as text or base64".data)
     (by decide) rfl,
   C9_status_codes.2.2.2.2.1 Unit "/r".data
     { files := [("/r/f".data, [104])], dirs := [], links := [], noperm := [] }
     "/r/f".data (fun _ => .error "bad".data)
     (.http 400 ("Unreadable Notebook: ".data ++ "/r/f".data ++ " ".data ++ "bad".data))
     (by decide) (by decide) rfl⟩

end FileIO
